import Mathlib

set_option maxHeartbeats 1000000
set_option maxRecDepth 2000

/-
Verification development for the webDataVirtualization dashboard
(src/src/App.tsx).  The component's core pipeline is embedded shallowly:

* scalar cell values become the inductive type Value (JS numbers are
  idealized as exact rationals; the embedding covers the finite fragment of
  JS number semantics, so the Infinity literals and float rounding are out
  of scope, and no NaN is ever stored in a Value),
* a row (a JS object built by successive key assignments) becomes an
  association list with insertion-ordered unique keys,
* the JS builtins used by the source (Number(string), isNaN, trim,
  toLowerCase, split, Array.prototype.sort with a comparator, reduce,
  Math.min / Math.max) are modelled explicitly below, next to the
  functions of App.tsx that call them.
-/

namespace WebDataViz

section

attribute [local semireducible] Rat.add Rat.mul Rat.inv

/-- Canonical scalar value stored in a parsed row (App.tsx rows hold JS
numbers, strings, booleans or null after ingestion). -/
inductive Value where
  | num (q : ℚ)
  | str (s : String)
  | bool (b : Bool)
  | null
deriving DecidableEq

/-- A parsed row: a JS object, i.e. an insertion-ordered association list
from column name to value.  Rows built by the ingestion code below always
have unique keys; property access d[k] reads the first binding of k. -/
abbrev Row := List (String × Value)

/-- Whitespace trim on a character list; models String.prototype.trim and
the whitespace trimming done by Number(string) (ASCII fragment). -/
def trimChars (l : List Char) : List Char :=
  ((l.dropWhile Char.isWhitespace).reverse.dropWhile Char.isWhitespace).reverse

/-- String.prototype.trim, returning the character list. -/
def jsTrim (s : String) : List Char := trimChars s.toList

/-- Value of a run of decimal digit characters. -/
def digitsToNat (ds : List Char) : Nat :=
  ds.foldl (fun n c => n * 10 + (c.toNat - 48)) 0

/-- Optional exponent part of a JS decimal numeric string: either nothing
remains, or an e/E followed by an optional sign and at least one digit
consuming the rest of the input. -/
def parseExpPart (base : ℚ) : List Char → Option ℚ
  | [] => some base
  | c :: rest =>
    if c = 'e' ∨ c = 'E' then
      let signRest : Bool × List Char :=
        match rest with
        | '+' :: r => (false, r)
        | '-' :: r => (true, r)
        | r => (false, r)
      let ds := signRest.2.takeWhile Char.isDigit
      if ds.isEmpty ∨ ¬ (signRest.2.drop ds.length).isEmpty then none
      else some (if signRest.1 then base / (10 : ℚ) ^ digitsToNat ds
                 else base * (10 : ℚ) ^ digitsToNat ds)
    else none

/-- Unsigned JS decimal numeric string: digits, an optional fraction after
a dot (at least one digit on one of the two sides), and an optional
exponent.  Returns none when the input is not fully consumed. -/
def parseUnsignedDec (l : List Char) : Option ℚ :=
  let ds := l.takeWhile Char.isDigit
  let rest := l.drop ds.length
  match rest with
  | [] => if ds.isEmpty then none else some (digitsToNat ds)
  | '.' :: rest2 =>
    let fs := rest2.takeWhile Char.isDigit
    let rest3 := rest2.drop fs.length
    if ds.isEmpty ∧ fs.isEmpty then none
    else parseExpPart ((digitsToNat ds : ℚ) + (digitsToNat fs : ℚ) / (10 : ℚ) ^ fs.length) rest3
  | _ => if ds.isEmpty then none else parseExpPart (digitsToNat ds) rest

/-- Whether a character is a digit of the given radix (16, 8 or 2). -/
def isRadixDigit (r : Nat) (c : Char) : Bool :=
  if r = 16 then c.isDigit || ('a' ≤ c && c ≤ 'f') || ('A' ≤ c && c ≤ 'F')
  else if r = 8 then '0' ≤ c && c ≤ '7'
  else c = '0' || c = '1'

/-- Numeric value of a radix digit character. -/
def radixDigitVal (c : Char) : Nat :=
  if c.isDigit then c.toNat - 48
  else if 'a' ≤ c && c ≤ 'f' then c.toNat - 87
  else c.toNat - 55

/-- A non-empty all-digit tail after a 0x / 0o / 0b radix marker. -/
def parseRadix (r : Nat) (l : List Char) : Option ℚ :=
  if l.isEmpty || l.any (fun c => ¬ isRadixDigit r c) then none
  else some ((l.foldl (fun n c => n * r + radixDigitVal c) 0 : Nat) : ℚ)

/-- Models the ECMAScript string-to-number conversion used by the source
through Number(value) and isNaN(value), restricted to finite results:
after trimming, the empty string is 0, a sign may precede a decimal
literal, and 0x / 0o / 0b prefixes introduce unsigned radix literals.
none models the NaN result.  The Infinity literals are outside this
finite-value embedding. -/
def jsStrToNum (s : String) : Option ℚ :=
  match jsTrim s with
  | [] => some 0
  | '+' :: rest => parseUnsignedDec rest
  | '-' :: rest => (parseUnsignedDec rest).map (fun q => -q)
  | '0' :: c :: rest =>
    if c = 'x' ∨ c = 'X' then parseRadix 16 rest
    else if c = 'o' ∨ c = 'O' then parseRadix 8 rest
    else if c = 'b' ∨ c = 'B' then parseRadix 2 rest
    else parseUnsignedDec ('0' :: c :: rest)
  | l => parseUnsignedDec l

/-- The claim's notion of a numeric literal in standard decimal notation:
an optionally signed decimal literal with optional fraction and exponent,
with no radix-prefixed alternative.  This definition follows the
specification's words and exists to be compared with jsStrToNum, which is
what the code actually applies. -/
def specDecimalNum (s : String) : Option ℚ :=
  match jsTrim s with
  | [] => none
  | '+' :: rest => parseUnsignedDec rest
  | '-' :: rest => (parseUnsignedDec rest).map (fun q => -q)
  | l => parseUnsignedDec l

/-- Type Normalizer of the Excel ingestion path (App.tsx lines 163-173):
a string value that is not NaN under JS conversion and is non-empty after
trimming is replaced by its number; everything else passes through. -/
def normalizeValue : Value → Value
  | Value.str s =>
    match jsStrToNum s with
    | some q => if jsTrim s = [] then Value.str s else Value.num q
    | none => Value.str s
  | v => v

/-- Numeric coercion of the CSV ingestion path (App.tsx lines 122-129):
the field string (already trimmed by the line parser) is coerced when it
is non-empty and not NaN under JS conversion. -/
def coerceCSV (s : String) : Value :=
  if s = "" then Value.str s
  else
    match jsStrToNum s with
    | some q => Value.num q
    | none => Value.str s

example : jsStrToNum "12.5" = some (25 / 2) := by decide
example : jsStrToNum "0x10" = some 16 := by decide
example : jsStrToNum "$5" = none := by decide
example : jsStrToNum "1,000" = none := by decide
example : jsStrToNum "50%" = none := by decide
example : jsStrToNum " 7 " = some 7 := by decide
example : jsStrToNum "" = some 0 := by decide
example : jsStrToNum "-3e2" = some (-300) := by decide
example : jsStrToNum "1.5e-1" = some (3 / 20) := by decide
example : jsStrToNum ".5" = some (1 / 2) := by decide
example : jsStrToNum "5." = some 5 := by decide
example : jsStrToNum "." = none := by decide
example : jsStrToNum "1e" = none := by decide
example : jsStrToNum "-0x10" = none := by decide
example : jsStrToNum "0b101" = some 5 := by decide
example : jsStrToNum "0o17" = some 15 := by decide
example : jsStrToNum "08" = some 8 := by decide
example : specDecimalNum "0x10" = none := by decide
example : normalizeValue (Value.str "0x10") = Value.num 16 := by decide
example : normalizeValue (Value.str " 7 ") = Value.num 7 := by decide
example : normalizeValue (Value.str "$5") = Value.str "$5" := by decide

/-- Single-character split; models String.prototype.split with a one
character separator (used by the source on newline and on the dot of a
file name).  The result is always non-empty. -/
def splitFields (sep : Char) : List Char → List (List Char)
  | [] => [[]]
  | c :: cs =>
    match splitFields sep cs with
    | [] => [[]]
    | f :: rest => if c = sep then [] :: f :: rest else (c :: f) :: rest

/-- Scanner of parseCSVLine (App.tsx lines 187-204): walk the line once,
toggling the in-quotes flag on each double quote (the quote character
itself stays in the current field slice, as substring keeps it) and
cutting a field at each comma seen outside quotes. -/
def csvScan : List Char → Bool → List Char → List (List Char)
  | [], _, cur => [cur.reverse]
  | c :: cs, inQ, cur =>
    if c = '"' then csvScan cs (!inQ) (c :: cur)
    else if c = ',' ∧ ¬ inQ then cur.reverse :: csvScan cs inQ []
    else csvScan cs inQ (c :: cur)

/-- Field post-processing of parseCSVLine: trim surrounding whitespace,
then strip one leading and one trailing literal quote if present; this is
the effect of trim() followed by the anchored global regex replacement. -/
def cleanField (f : List Char) : String :=
  let t := trimChars f
  let t1 := if t.head? = some '"' then t.tail else t
  let t2 := if t1.getLast? = some '"' then t1.dropLast else t1
  String.mk t2

/-- parseCSVLine (App.tsx lines 187-204). -/
def parseCSVLine (line : String) : List String :=
  (csvScan line.toList false []).map cleanField

/-- The surviving lines of parseCSVFile: split the text on newlines and
drop the lines that are blank after trimming (App.tsx line 109). -/
def nonBlankLines (text : String) : List String :=
  ((splitFields '\n' text.toList).map String.mk).filter (fun l => jsTrim l ≠ [])

/-- One JS object property assignment row[k] = v: an existing binding of
k is overwritten in place, otherwise the binding is appended. -/
def jsObjSet (row : Row) (k : String) (v : Value) : Row :=
  if row.any (fun p => p.1 == k) then
    row.map (fun p => if p.1 == k then (k, v) else p)
  else row ++ [(k, v)]

/-- Row construction of parseCSVFile (App.tsx lines 120-129): for each
header in order, take the field at the same index (missing fields resolve
to the empty string), coerce it, and assign it under the header key. -/
def mkRow (headers : List String) (values : List String) : Row :=
  headers.enum.foldl (fun row iv => jsObjSet row iv.2 (coerceCSV (values.getD iv.1 ""))) []

instance {ε α : Type} [DecidableEq ε] [DecidableEq α] : DecidableEq (Except ε α) := fun a b =>
  match a, b with
  | Except.ok x, Except.ok y => decidable_of_iff (x = y) (by simp)
  | Except.ok _, Except.error _ => isFalse (by simp)
  | Except.error _, Except.ok _ => isFalse (by simp)
  | Except.error e, Except.error f => decidable_of_iff (e = f) (by simp)

/-- parseCSVFile (App.tsx lines 97-143) given the string produced by the
completed text read.  An empty result string is falsy in JS, so it takes
the failed-read branch before the blank-line filter runs; afterwards the
first surviving line is the header and every further surviving line
yields one row. -/
def parseCSVFile (text : String) : Except String (List Row) :=
  if text = "" then Except.error "Failed to read file"
  else
    match nonBlankLines text with
    | [] => Except.error "CSV file is empty"
    | header :: dataLines =>
      Except.ok (dataLines.map (fun line => mkRow (parseCSVLine header) (parseCSVLine line)))

example : parseCSVLine "a, \"b, c\" ,d" = ["a", "b, c", "d"] := by decide
example : parseCSVLine "\"a\"\"b\"" = ["a\"\"b"] := by decide
example : parseCSVLine "  x  ,y" = ["x", "y"] := by decide
example : parseCSVFile "Name,Amount\nA,10\nB,30" =
    Except.ok [[("Name", Value.str "A"), ("Amount", Value.num 10)],
               [("Name", Value.str "B"), ("Amount", Value.num 30)]] := by decide
example : parseCSVFile "" = Except.error "Failed to read file" := by decide
example : parseCSVFile " \n " = Except.error "CSV file is empty" := by decide

/-- MAX_DISPLAY_DATA (App.tsx line 7). -/
def MAX_DISPLAY_DATA : Nat := 100

/-- JS property read item[k]: the first binding of k, if any. -/
def jsGet (r : Row) (k : String) : Option Value := r.lookup k

/-- The filter predicate of processedData (App.tsx lines 31-34): the
yColumn value exists and is a number (no NaN is ever stored here, so the
isNaN guard is vacuous in the embedding). -/
def isNumericAt (y : String) (r : Row) : Bool :=
  match jsGet r y with
  | some (Value.num _) => true
  | _ => false

/-- Sort key read by the comparator (b, a) => b[yAxis] - a[yAxis]; it is
only ever applied to rows that passed the numeric filter, where the
lookup yields a number. -/
def keyOf (y : String) (r : Row) : ℚ :=
  match jsGet r y with
  | some (Value.num q) => q
  | _ => 0

/-- Stable descending insertion: the incoming earlier element passes over
strictly larger keys and stops before the first key not larger than its
own, so elements with equal keys keep their original relative order. -/
def insertRowDesc (y : String) (r : Row) : List Row → List Row
  | [] => [r]
  | s :: rest =>
    if keyOf y r < keyOf y s then s :: insertRowDesc y r rest
    else r :: s :: rest

/-- The stable descending sort by the yColumn key; models
Array.prototype.sort with the comparator (a, b) => b[yAxis] - a[yAxis],
which ECMAScript 2019 requires to be a stable sort consistent with the
comparator. -/
def sortRowsDesc (y : String) (l : List Row) : List Row :=
  l.foldr (insertRowDesc y) []

/-- processedData (App.tsx lines 26-37): empty when the data or either
axis selection is empty; otherwise filter to numeric yColumn rows, sort
descending, and truncate to MAX_DISPLAY_DATA rows. -/
def processedData (data : List Row) (x y : String) : List Row :=
  if data = [] ∨ x = "" ∨ y = "" then []
  else (sortRowsDesc y (data.filter (isNumericAt y))).take MAX_DISPLAY_DATA

/-- Summary statistics record returned by yAxisStats. -/
structure YStats where
  min : ℚ
  max : ℚ
  avg : ℚ
  count : Nat
deriving DecidableEq

/-- The numeric values of column y across the whole dataset, in row
order: data.map(d => d[yAxis]).filter(v => typeof v === number). -/
def numericValuesOf (data : List Row) (y : String) : List ℚ :=
  data.filterMap (fun r =>
    match jsGet r y with
    | some (Value.num q) => some q
    | _ => none)

/-- yAxisStats (App.tsx lines 329-349): null when no yColumn is selected,
the dataset is empty, or no numeric values exist; otherwise min, max,
mean (sum by reduce over 0, divided by the count) and count over the
entire unfiltered untruncated dataset. -/
def yAxisStats (data : List Row) (y : String) : Option YStats :=
  if y = "" ∨ data = [] then none
  else
    match numericValuesOf data y with
    | [] => none
    | v :: vs =>
      some { min := vs.foldl min v
             max := vs.foldl max v
             avg := (v :: vs).foldl (· + ·) 0 / ((v :: vs).length : ℚ)
             count := (v :: vs).length }

example : processedData [[("n", Value.str "A"), ("a", Value.num 10)],
                         [("n", Value.str "B"), ("a", Value.num 30)],
                         [("n", Value.str "C"), ("a", Value.num 20)]] "n" "a" =
    [[("n", Value.str "B"), ("a", Value.num 30)],
     [("n", Value.str "C"), ("a", Value.num 20)],
     [("n", Value.str "A"), ("a", Value.num 10)]] := by decide
example : yAxisStats [[("a", Value.num 10)], [("a", Value.num 30)], [("a", Value.num 20)]] "a" =
    some { min := 10, max := 30, avg := 20, count := 3 } := by decide

/-- Substring occurrence on character lists; models the regex alternation
match used for the preferred-name test. -/
def hasSubstr (pat : List Char) : List Char → Bool
  | [] => pat.isEmpty
  | c :: rest => pat.isPrefixOf (c :: rest) || hasSubstr pat rest

/-- The preferred yColumn name fragments of App.tsx line 54, in the order
of the regex alternation. -/
def preferredPats : List String := ["amount", "value", "total", "price", "cost", "sales"]

/-- col.toLowerCase().match(/amount|value|total|price|cost|sales/): true
when the lowercased name contains one of the fragments. -/
def matchesPreferred (c : String) : Bool :=
  preferredPats.any (fun p => hasSubstr p.toList (c.toList.map Char.toLower))

/-- The numeric columns of the axis-defaulting effect (App.tsx lines
46-50): columns whose value in the first data row is a number; empty when
the dataset is empty. -/
def numericColumns (cols : List String) (data : List Row) : List String :=
  cols.filter (fun c =>
    match data with
    | [] => false
    | r0 :: _ =>
      match jsGet r0 c with
      | some (Value.num _) => true
      | _ => false)

/-- Default yAxis choice (App.tsx lines 52-57): the first numeric column
whose name matches the preferred fragments, else the first numeric
column, else the empty selection. -/
def defaultY (cols : List String) (data : List Row) : String :=
  match (numericColumns cols data).find? matchesPreferred with
  | some c => c
  | none => (numericColumns cols data).headD ""

/-- The axis-defaulting effect (App.tsx lines 40-59): when the column
list is non-empty it overwrites both selections, otherwise it leaves the
previous selections in place. -/
def axesEffect (cols : List String) (data : List Row) (axes : String × String) : String × String :=
  if cols = [] then axes else (cols.headD "", defaultY cols data)

example : axesEffect ["Region", "Sales"]
    [[("Region", Value.str "north"), ("Sales", Value.num 10)]] ("", "") = ("Region", "Sales") := by decide
example : axesEffect ["Region", "Sales"]
    [[("Region", Value.num 1), ("Sales", Value.num 10)]] ("", "") = ("Region", "Sales") := by decide
example : axesEffect ["Sales", "Region"]
    [[("Sales", Value.num 10), ("Region", Value.num 1)]] ("", "") = ("Sales", "Sales") := by decide

/-- The last element of a single-character split; models
name.split(sep).pop(). -/
def jsSplitPop (sep : Char) (name : String) : List Char :=
  (splitFields sep name.toList).getLastD []

/-- File extension extraction of handleFileUpload (App.tsx line 72):
file.name.split(dot).pop().toLowerCase(). -/
def extOf (name : String) : String :=
  String.mk ((jsSplitPop '.' name).map Char.toLower)

/-- The slice of the name after the last occurrence of the separator (the
whole name when the separator is absent); this follows the
specification's words, to be compared with the split-and-pop of the
source. -/
def afterLastSep (sep : Char) : List Char → List Char
  | [] => []
  | c :: cs =>
    if cs.contains sep then afterLastSep sep cs
    else if c = sep then cs
    else c :: cs

example : extOf "report.TXT" = "txt" := by decide
example : extOf "a.b.CSV" = "csv" := by decide
example : extOf "noext" = "noext" := by decide

/-- The outcome of the file read seen by the reader callbacks: either the
error callback fired, or the load callback delivered the decoded text. -/
inductive FileRead where
  | failed
  | text (s : String)

/-- The component state touched by handleFileUpload. -/
structure AppState where
  data : List Row
  columns : List String
  fileName : String
  loading : Bool
  error : String
deriving DecidableEq

/-- The synchronous prefix of handleFileUpload (App.tsx lines 65-69): set
loading, clear the error, record the file name, clear dataset and column
list before the new file is parsed. -/
def startUpload (s : AppState) (name : String) : AppState :=
  { s with loading := true, error := "", fileName := name, data := [], columns := [] }

/-- The parse outcome awaited inside the try block (App.tsx lines 72-81):
dispatch on the lowercased extension; the CSV path runs parseCSVFile on
the text read (a failed read rejects with the reader error message); the
Excel path delegates binary decoding to the external XLSX library plus
the Type Normalizer, abstracted here as the promise outcome it resolves
or rejects with; any other extension throws the unsupported-type error
without consuming any read. -/
def uploadOutcome (name : String) (read : FileRead) (excel : Except String (List Row)) :
    Except String (List Row) :=
  if extOf name = "csv" then
    match read with
    | FileRead.failed => Except.error "Error reading file"
    | FileRead.text t => parseCSVFile t
  else if extOf name = "xlsx" ∨ extOf name = "xls" then excel
  else Except.error ("Unsupported file type: " ++ extOf name)

/-- The resolution of handleFileUpload (App.tsx lines 83-94): a non-empty
row list replaces the dataset and derives the column list from the first
row's keys; an empty row list sets the no-valid-data message; a rejection
sets the prefixed error message; the finally clause clears loading. -/
def finishUpload (s : AppState) (outcome : Except String (List Row)) : AppState :=
  let s1 :=
    match outcome with
    | Except.ok rows =>
      if rows.length > 0 then
        { s with data := rows, columns := (rows.headD []).map Prod.fst }
      else { s with error := "No valid data found in file" }
    | Except.error m => { s with error := "Error processing file: " ++ m }
  { s1 with loading := false }

/-- handleFileUpload (App.tsx lines 61-95) for one selected file, as a
state transformer over the read and decode outcomes. -/
def handleFileUpload (s : AppState) (name : String) (read : FileRead)
    (excel : Except String (List Row)) : AppState :=
  finishUpload (startUpload s name) (uploadOutcome name read excel)

/-- A blank initial state, used by concrete instantiations below. -/
def st0 : AppState := { data := [], columns := [], fileName := "", loading := false, error := "" }

example : (handleFileUpload st0 "f.txt" FileRead.failed (Except.ok [])).error =
    "Error processing file: Unsupported file type: txt" := by decide
example : (handleFileUpload st0 "d.csv" (FileRead.text "a,b") (Except.error "x")).error =
    "No valid data found in file" := by decide
example : (handleFileUpload st0 "d.csv" (FileRead.text "a,b\n1,2") (Except.error "x")).columns =
    ["a", "b"] := by decide
example : (handleFileUpload st0 "d.CSV" (FileRead.text " \n ") (Except.ok [])).error =
    "Error processing file: CSV file is empty" := by decide

/-- Elements of a stable descending insertion are the inserted row and
the rows already present. -/
theorem mem_insertRowDesc {y : String} {r a : Row} {l : List Row}
    (h : a ∈ insertRowDesc y r l) : a = r ∨ a ∈ l := by
  induction l with
  | nil => simpa [insertRowDesc] using h
  | cons s rest ih =>
    rw [insertRowDesc] at h
    split at h
    · rcases List.mem_cons.mp h with h1 | h2
      · exact Or.inr (h1 ▸ List.mem_cons_self s rest)
      · rcases ih h2 with h3 | h4
        · exact Or.inl h3
        · exact Or.inr (List.mem_cons_of_mem s h4)
    · rcases List.mem_cons.mp h with h1 | h2
      · exact Or.inl h1
      · exact Or.inr h2

/-- Stable descending insertion preserves the descending order. -/
theorem pairwise_insertRowDesc {y : String} {l : List Row} (r : Row)
    (h : l.Pairwise (fun a b => keyOf y b ≤ keyOf y a)) :
    (insertRowDesc y r l).Pairwise (fun a b => keyOf y b ≤ keyOf y a) := by
  induction l with
  | nil => simp [insertRowDesc]
  | cons s rest ih =>
    rw [List.pairwise_cons] at h
    rw [insertRowDesc]
    split
    · rename_i h1
      rw [List.pairwise_cons]
      refine ⟨fun b hb => ?_, ih h.2⟩
      rcases mem_insertRowDesc hb with rfl | hb2
      · exact le_of_lt h1
      · exact h.1 b hb2
    · rename_i h1
      rw [List.pairwise_cons]
      refine ⟨fun b hb => ?_, List.pairwise_cons.mpr h⟩
      rcases List.mem_cons.mp hb with rfl | hb2
      · exact le_of_not_lt h1
      · exact le_trans (h.1 b hb2) (le_of_not_lt h1)

/-- The sorted output of the model sort is descending in the yColumn
key. -/
theorem sorted_sortRowsDesc (y : String) (l : List Row) :
    (sortRowsDesc y l).Pairwise (fun a b => keyOf y b ≤ keyOf y a) := by
  induction l with
  | nil => simp [sortRowsDesc]
  | cons a l ih => exact pairwise_insertRowDesc a ih

/-- Inserting a row either prepends it to the equal-key fiber or leaves
that fiber unchanged: together with sortedness this is exactly stability
of the sort. -/
theorem filter_insertRowDesc (y : String) (r : Row) (l : List Row) (q : ℚ) :
    (insertRowDesc y r l).filter (fun s => keyOf y s == q) =
      if keyOf y r == q then r :: l.filter (fun s => keyOf y s == q)
      else l.filter (fun s => keyOf y s == q) := by
  induction l with
  | nil =>
    rw [insertRowDesc]
    by_cases h : keyOf y r = q
    · simp [List.filter_cons, h]
    · simp [List.filter_cons, h]
  | cons s rest ih =>
    rw [insertRowDesc]
    by_cases h1 : keyOf y r < keyOf y s
    · rw [if_pos h1]
      by_cases h2 : keyOf y r = q
      · have h3 : ¬ keyOf y s = q := by
          rw [← h2]
          exact ne_of_gt h1
        simp [List.filter_cons, ih, h2, h3]
      · by_cases h4 : keyOf y s = q
        · simp [List.filter_cons, ih, h2, h4]
        · simp [List.filter_cons, ih, h2, h4]
    · rw [if_neg h1]
      by_cases h2 : keyOf y r = q
      · simp [List.filter_cons, h2]
      · simp [List.filter_cons, h2]

/-- Stability of the model sort: every equal-key fiber of the output is
the corresponding fiber of the input in its original order. -/
theorem filter_sortRowsDesc (y : String) (l : List Row) (q : ℚ) :
    (sortRowsDesc y l).filter (fun s => keyOf y s == q) =
      l.filter (fun s => keyOf y s == q) := by
  induction l with
  | nil => rfl
  | cons a l ih =>
    have h0 : sortRowsDesc y (a :: l) = insertRowDesc y a (sortRowsDesc y l) := rfl
    rw [h0, filter_insertRowDesc]
    by_cases h2 : keyOf y a = q
    · simp [List.filter_cons, h2, ih]
    · simp [List.filter_cons, h2, ih]

/-- Insertion grows the length by one. -/
theorem length_insertRowDesc (y : String) (r : Row) (l : List Row) :
    (insertRowDesc y r l).length = l.length + 1 := by
  induction l with
  | nil => rfl
  | cons s rest ih =>
    rw [insertRowDesc]
    split
    · simp [ih]
    · simp

/-- The model sort is a permutation in particular of the same length. -/
theorem length_sortRowsDesc (y : String) (l : List Row) :
    (sortRowsDesc y l).length = l.length := by
  induction l with
  | nil => rfl
  | cons a l ih =>
    have h0 : sortRowsDesc y (a :: l) = insertRowDesc y a (sortRowsDesc y l) := rfl
    rw [h0, length_insertRowDesc, ih, List.length_cons]

/-- Projection length with both axes selected: the truncation cap against
the numeric-row count. -/
theorem processedData_length (data : List Row) (x y : String) (hx : x ≠ "") (hy : y ≠ "") :
    (processedData data x y).length =
      min MAX_DISPLAY_DATA (data.filter (isNumericAt y)).length := by
  by_cases hd : data = []
  · subst hd
    simp [processedData]
  · rw [processedData, if_neg (by tauto), List.length_take, length_sortRowsDesc]

/-- A min fold is bounded by its initial value. -/
theorem foldl_min_le_self (xs : List ℚ) : ∀ x : ℚ, xs.foldl min x ≤ x := by
  induction xs with
  | nil => intro x; simp
  | cons a t ih =>
    intro x
    exact le_trans (ih (min x a)) (min_le_left x a)

/-- A min fold is bounded by every folded element. -/
theorem foldl_min_le_of_mem (xs : List ℚ) : ∀ x q : ℚ, q ∈ xs → xs.foldl min x ≤ q := by
  induction xs with
  | nil => intro x q h; cases h
  | cons a t ih =>
    intro x q h
    rcases List.mem_cons.mp h with rfl | h2
    · exact le_trans (foldl_min_le_self t (min x q)) (min_le_right x q)
    · exact ih (min x a) q h2

/-- A min fold returns the initial value or one of the elements. -/
theorem foldl_min_mem (xs : List ℚ) : ∀ x : ℚ, xs.foldl min x ∈ x :: xs := by
  induction xs with
  | nil => intro x; simp
  | cons a t ih =>
    intro x
    show t.foldl min (min x a) ∈ x :: a :: t
    rcases List.mem_cons.mp (ih (min x a)) with h | h
    · rw [h]
      rcases min_choice x a with h2 | h2
      · rw [h2]
        exact List.mem_cons_self x (a :: t)
      · rw [h2]
        exact List.mem_cons_of_mem x (List.mem_cons_self a t)
    · exact List.mem_cons_of_mem x (List.mem_cons_of_mem a h)

/-- A max fold dominates its initial value. -/
theorem le_foldl_max_self (xs : List ℚ) : ∀ x : ℚ, x ≤ xs.foldl max x := by
  induction xs with
  | nil => intro x; simp
  | cons a t ih =>
    intro x
    exact le_trans (le_max_left x a) (ih (max x a))

/-- A max fold dominates every folded element. -/
theorem le_foldl_max_of_mem (xs : List ℚ) : ∀ x q : ℚ, q ∈ xs → q ≤ xs.foldl max x := by
  induction xs with
  | nil => intro x q h; cases h
  | cons a t ih =>
    intro x q h
    rcases List.mem_cons.mp h with rfl | h2
    · exact le_trans (le_max_right x q) (le_foldl_max_self t (max x q))
    · exact ih (max x a) q h2

/-- A max fold returns the initial value or one of the elements. -/
theorem foldl_max_mem (xs : List ℚ) : ∀ x : ℚ, xs.foldl max x ∈ x :: xs := by
  induction xs with
  | nil => intro x; simp
  | cons a t ih =>
    intro x
    show t.foldl max (max x a) ∈ x :: a :: t
    rcases List.mem_cons.mp (ih (max x a)) with h | h
    · rw [h]
      rcases max_choice x a with h2 | h2
      · rw [h2]
        exact List.mem_cons_self x (a :: t)
      · rw [h2]
        exact List.mem_cons_of_mem x (List.mem_cons_self a t)
    · exact List.mem_cons_of_mem x (List.mem_cons_of_mem a h)

/-- An add fold of elements all below M is bounded by the initial value
plus M per element. -/
theorem foldl_add_le_of_le (l : List ℚ) (M : ℚ) (h : ∀ q ∈ l, q ≤ M) :
    ∀ a : ℚ, l.foldl (· + ·) a ≤ a + l.length * M := by
  induction l with
  | nil => intro a; simp
  | cons b t ih =>
    intro a
    have hb : b ≤ M := h b (List.mem_cons_self b t)
    have ih2 := ih (fun q hq => h q (List.mem_cons_of_mem b hq)) (a + b)
    have hl : ((b :: t).length : ℚ) = (t.length : ℚ) + 1 := by push_cast [List.length_cons]; ring
    calc (b :: t).foldl (· + ·) a = t.foldl (· + ·) (a + b) := rfl
    _ ≤ (a + b) + t.length * M := ih2
    _ ≤ a + ((t.length : ℚ) + 1) * M := by ring_nf; linarith
    _ = a + (b :: t).length * M := by rw [hl]

/-- An add fold of elements all above m dominates the initial value plus
m per element. -/
theorem le_foldl_add_of_le (l : List ℚ) (m : ℚ) (h : ∀ q ∈ l, m ≤ q) :
    ∀ a : ℚ, a + l.length * m ≤ l.foldl (· + ·) a := by
  induction l with
  | nil => intro a; simp
  | cons b t ih =>
    intro a
    have hb : m ≤ b := h b (List.mem_cons_self b t)
    have ih2 := ih (fun q hq => h q (List.mem_cons_of_mem b hq)) (a + b)
    have hl : ((b :: t).length : ℚ) = (t.length : ℚ) + 1 := by push_cast [List.length_cons]; ring
    calc a + (b :: t).length * m = a + ((t.length : ℚ) + 1) * m := by rw [hl]
    _ ≤ (a + b) + t.length * m := by ring_nf; linarith
    _ ≤ t.foldl (· + ·) (a + b) := ih2
    _ = (b :: t).foldl (· + ·) a := rfl

/-- A successful find? returns the first matching element: a match,
preceded only by non-matching elements. -/
theorem find?_eq_some_split {α : Type} (p : α → Bool) (l : List α) (c : α)
    (h : l.find? p = some c) :
    p c = true ∧ ∃ l1 l2, l = l1 ++ c :: l2 ∧ ∀ a ∈ l1, p a = false := by
  induction l with
  | nil => cases h
  | cons a t ih =>
    rw [List.find?_cons] at h
    cases hpa : p a with
    | true =>
      rw [hpa] at h
      cases h
      exact ⟨hpa, [], t, rfl, fun a ha => absurd ha (List.not_mem_nil a)⟩
    | false =>
      rw [hpa] at h
      obtain ⟨hc, l1, l2, rfl, hl1⟩ := ih h
      refine ⟨hc, a :: l1, l2, rfl, fun b hb => ?_⟩
      rcases List.mem_cons.mp hb with rfl | hb2
      · exact hpa
      · exact hl1 b hb2

/-- Unfolding of the split at a cons cell, given the split of the
tail. -/
theorem splitFields_cons_of (sep c : Char) (cs : List Char) (f : List Char)
    (rest : List (List Char)) (h : splitFields sep cs = f :: rest) :
    splitFields sep (c :: cs) = if c = sep then [] :: f :: rest else (c :: f) :: rest := by
  have h0 : splitFields sep (c :: cs) =
      match splitFields sep cs with
      | [] => [[]]
      | g :: gs => if c = sep then [] :: g :: gs else (c :: g) :: gs := rfl
  rw [h0, h]

/-- A single-character split is never empty. -/
theorem splitFields_ne_nil (sep : Char) (l : List Char) : splitFields sep l ≠ [] := by
  induction l with
  | nil => simp [splitFields]
  | cons c cs ih =>
    cases hr : splitFields sep cs with
    | nil => exact absurd hr ih
    | cons f rest =>
      rw [splitFields_cons_of sep c cs f rest hr]
      by_cases hc : c = sep
      · rw [if_pos hc]
        simp
      · rw [if_neg hc]
        simp

/-- Splitting a list without the separator yields that list alone. -/
theorem splitFields_of_not_contains (sep : Char) (l : List Char)
    (h : ¬ l.contains sep = true) : splitFields sep l = [l] := by
  induction l with
  | nil => rfl
  | cons c cs ih =>
    simp only [List.contains_cons, Bool.or_eq_true, beq_iff_eq] at h
    push_neg at h
    rw [splitFields_cons_of sep c cs cs [] (ih h.2), if_neg (fun e => h.1 e.symm)]

/-- A split with a single field means the separator is absent and the
field is the whole input. -/
theorem splitFields_eq_singleton (sep : Char) (l f : List Char)
    (h : splitFields sep l = [f]) : ¬ l.contains sep = true ∧ f = l := by
  induction l generalizing f with
  | nil =>
    rw [splitFields] at h
    injection h with h1 h2
    subst h1
    exact ⟨by simp [List.contains], rfl⟩
  | cons c cs ih =>
    cases hr : splitFields sep cs with
    | nil => exact absurd hr (splitFields_ne_nil sep cs)
    | cons g rest =>
      rw [splitFields_cons_of sep c cs g rest hr] at h
      by_cases hc : c = sep
      · rw [if_pos hc] at h
        injection h with h1 h2
        simp at h2
      · rw [if_neg hc] at h
        injection h with h1 h2
        subst h2
        obtain ⟨hnc, rfl⟩ := ih g hr
        subst h1
        refine ⟨?_, rfl⟩
        simp only [List.contains_cons, Bool.or_eq_true, beq_iff_eq]
        push_neg
        exact ⟨fun e => hc e.symm, hnc⟩

/-- If the separator is absent, the slice after its last occurrence is
the whole input. -/
theorem afterLastSep_of_not_contains (sep : Char) (l : List Char)
    (h : ¬ l.contains sep = true) : afterLastSep sep l = l := by
  induction l with
  | nil => rfl
  | cons c cs ih =>
    simp only [List.contains_cons, Bool.or_eq_true, beq_iff_eq] at h
    push_neg at h
    rw [afterLastSep, if_neg h.2, if_neg (fun e => h.1 e.symm)]

/-- The last field of a single-character split is the slice after the
last occurrence of the separator: split-and-pop computes the
specification's substring-after-the-last-dot. -/
theorem splitFields_getLastD (sep : Char) (l : List Char) :
    (splitFields sep l).getLastD [] = afterLastSep sep l := by
  induction l with
  | nil => rfl
  | cons c cs ih =>
    cases hr : splitFields sep cs with
    | nil => exact absurd hr (splitFields_ne_nil sep cs)
    | cons f rest =>
      rw [splitFields_cons_of sep c cs f rest hr, afterLastSep]
      by_cases hc : c = sep
      · rw [if_pos hc, List.getLastD_cons]
        have h1 : (f :: rest).getLastD ([] : List Char) = afterLastSep sep cs := by
          rw [← hr]
          exact ih
        rw [h1]
        by_cases hcs : cs.contains sep = true
        · rw [if_pos hcs]
        · rw [if_neg hcs, if_pos hc, afterLastSep_of_not_contains sep cs hcs]
      · rw [if_neg hc]
        cases rest with
        | nil =>
          obtain ⟨hnc, rfl⟩ := splitFields_eq_singleton sep cs f hr
          rw [if_neg hnc, if_neg hc]
          rfl
        | cons r0 rs =>
          have hcs : cs.contains sep = true := by
            by_contra hn
            rw [splitFields_of_not_contains sep cs hn] at hr
            simp at hr
          rw [if_pos hcs]
          have h2 : ((c :: f) :: r0 :: rs).getLastD ([] : List Char) =
              (f :: r0 :: rs).getLastD [] := by
            simp only [List.getLastD_cons]
          rw [h2, ← hr]
          exact ih

/-- The source's extension extraction agrees with the specification's
lowercased substring after the last dot. -/
theorem extOf_eq_afterLastSep (name : String) :
    extOf name = String.mk ((afterLastSep '.' name.toList).map Char.toLower) := by
  rw [extOf, jsSplitPop, splitFields_getLastD]

/-- An empty character list underlies only the empty string. -/
theorem toList_eq_nil_iff (s : String) : s.toList = [] ↔ s = "" := by
  cases s with
  | mk data =>
    constructor
    · intro h
      simp only [String.toList] at h
      rw [h]
    · intro h
      rw [h]
      rfl

/-- C1: for every CSV text whose non-blank lines are a header followed by
N data lines, parseCSVFile succeeds with exactly N canonical rows; the
single-pass quoted scanner keeps a quoted comma inside one field, each
field is trimmed, and at most one leading and one trailing quote is
stripped with no unescaping of doubled internal quotes. -/
theorem claim1_csv_row_count :
    (∀ text : String, nonBlankLines text ≠ [] →
      ∃ rows, parseCSVFile text = Except.ok rows
        ∧ rows.length + 1 = (nonBlankLines text).length)
    ∧ parseCSVLine "a, \"b, c\" ,d" = ["a", "b, c", "d"]
    ∧ parseCSVLine "\"a\"\"b\"" = ["a\"\"b"]
    ∧ parseCSVLine "  x  ,y" = ["x", "y"] := by
  refine ⟨?_, by decide, by decide, by decide⟩
  intro text h
  have htext : text ≠ "" := by
    intro e
    subst e
    exact h (by decide)
  cases hl : nonBlankLines text with
  | nil => exact absurd hl h
  | cons header dataLines =>
    refine ⟨dataLines.map (fun line => mkRow (parseCSVLine header) (parseCSVLine line)), ?_, ?_⟩
    · rw [parseCSVFile, if_neg htext, hl]
    · rw [List.length_map, List.length_cons]

/-- Witness for C1 at a concrete file of one header line and one data
line holding a quoted comma. -/
theorem claim1_witness :
    ∃ rows, parseCSVFile "h1,h2\nA,\"1,5\"" = Except.ok rows
      ∧ rows.length + 1 = (nonBlankLines "h1,h2\nA,\"1,5\"").length :=
  claim1_csv_row_count.1 "h1,h2\nA,\"1,5\"" (by decide)

/-- C2 counterexample: with an empty xColumn selection and one numeric
row, the projection is empty while the filter-sort-truncate pipeline on
the same dataset is not, refuting the claimed equality for every axis
pair. -/
theorem claim2_counterexample :
    processedData [[("a", Value.str "u"), ("b", Value.num 1)]] "" "b" ≠
      (sortRowsDesc "b" ([[("a", Value.str "u"), ("b", Value.num 1)]].filter
        (isNumericAt "b"))).take MAX_DISPLAY_DATA := by decide

/-- C2 (amended): when both axis selections are non-empty the projection
equals the numeric-filtered rows stably sorted descending by the yColumn
and truncated to 100: the output is pairwise descending, each equal-key
fiber of the sort keeps its input order, and the projection length is
exactly min(100, numeric-row count); for every axis pair, including the
empty selections, the length stays at most that bound. -/
theorem claim2_projection :
    (∀ (data : List Row) (x y : String), x ≠ "" → y ≠ "" →
      processedData data x y =
          (sortRowsDesc y (data.filter (isNumericAt y))).take MAX_DISPLAY_DATA
        ∧ (processedData data x y).Pairwise (fun a b => keyOf y b ≤ keyOf y a)
        ∧ (∀ q : ℚ,
            (sortRowsDesc y (data.filter (isNumericAt y))).filter (fun s => keyOf y s == q) =
              (data.filter (isNumericAt y)).filter (fun s => keyOf y s == q))
        ∧ (processedData data x y).length =
            min MAX_DISPLAY_DATA (data.filter (isNumericAt y)).length)
    ∧ (∀ (data : List Row) (x y : String),
        (processedData data x y).length ≤
          min MAX_DISPLAY_DATA (data.filter (isNumericAt y)).length) := by
  constructor
  · intro data x y hx hy
    have heq : processedData data x y =
        (sortRowsDesc y (data.filter (isNumericAt y))).take MAX_DISPLAY_DATA := by
      by_cases hd : data = []
      · subst hd
        simp [processedData, sortRowsDesc]
      · rw [processedData, if_neg (by tauto)]
    refine ⟨heq, ?_, fun q => filter_sortRowsDesc y _ q, processedData_length data x y hx hy⟩
    rw [heq]
    exact List.Pairwise.sublist (List.take_sublist _ _) (sorted_sortRowsDesc y _)
  · intro data x y
    by_cases hcond : data = [] ∨ x = "" ∨ y = ""
    · rw [processedData, if_pos hcond]
      simp
    · push_neg at hcond
      rw [processedData_length data x y hcond.2.1 hcond.2.2]

/-- Witness for C2 on a one-row dataset with both axes selected. -/
theorem claim2_witness :
    processedData [[("a", Value.num 3)]] "a" "a" =
      (sortRowsDesc "a" ([[("a", Value.num 3)]].filter (isNumericAt "a"))).take
        MAX_DISPLAY_DATA :=
  (claim2_projection.1 [[("a", Value.num 3)]] "a" "a" (by decide) (by decide)).1

/-- C10: with an empty xColumn selection the projection is always the
empty sequence, even on a dataset whose yColumn holds numeric values. -/
theorem claim10_empty_x :
    (∀ (data : List Row) (y : String), processedData data "" y = [])
    ∧ processedData [[("a", Value.str "v"), ("b", Value.num 2)]] "" "b" = []
    ∧ [[("a", Value.str "v"), ("b", Value.num 2)]].filter (isNumericAt "b") ≠ [] := by
  refine ⟨?_, by decide, by decide⟩
  intro data y
  rw [processedData, if_pos (Or.inr (Or.inl rfl))]

/-- A 150-row all-numeric dataset (y running down from 149), used for the
bounded-projection versus full-statistics scenario. -/
def bigData : List Row :=
  (List.range 150).map (fun i => [("x", Value.str "r"), ("y", Value.num ((149 - i : ℕ) : ℚ))])

/-- C3: whenever yAxisStats yields a record, its count is the number of
numeric values of the chosen column over the whole dataset, min and max
are attained bounds of those values, the mean is their sum over the
count, and min ≤ mean ≤ max; on the 150-row all-numeric dataset the
projection length is exactly 100 while the statistics count is 150. -/
theorem claim3_stats :
    (∀ (data : List Row) (y : String) (st : YStats), yAxisStats data y = some st →
      st.count = (numericValuesOf data y).length
      ∧ st.min ∈ numericValuesOf data y
      ∧ (∀ q ∈ numericValuesOf data y, st.min ≤ q)
      ∧ st.max ∈ numericValuesOf data y
      ∧ (∀ q ∈ numericValuesOf data y, q ≤ st.max)
      ∧ st.avg = (numericValuesOf data y).foldl (· + ·) 0 / (st.count : ℚ)
      ∧ st.min ≤ st.avg ∧ st.avg ≤ st.max)
    ∧ (processedData bigData "x" "y").length = 100
    ∧ (∃ st : YStats, yAxisStats bigData "y" = some st ∧ st.count = 150) := by
  refine ⟨?_, ?_, ?_⟩
  · intro data y st h
    by_cases h0 : y = "" ∨ data = []
    · rw [yAxisStats, if_pos h0] at h
      cases h
    · rw [yAxisStats, if_neg h0] at h
      cases hnv : numericValuesOf data y with
      | nil =>
        rw [hnv] at h
        cases h
      | cons v vs =>
        rw [hnv] at h
        injection h with hst
        subst hst
        have hminle : ∀ q ∈ v :: vs, vs.foldl min v ≤ q := by
          intro q hq
          rcases List.mem_cons.mp hq with rfl | hq2
          · exact foldl_min_le_self vs q
          · exact foldl_min_le_of_mem vs v q hq2
        have hmaxle : ∀ q ∈ v :: vs, q ≤ vs.foldl max v := by
          intro q hq
          rcases List.mem_cons.mp hq with rfl | hq2
          · exact le_foldl_max_self vs q
          · exact le_foldl_max_of_mem vs v q hq2
        have hn : (0 : ℚ) < (((v :: vs).length : ℕ) : ℚ) := by
          have h1 : 0 < (v :: vs).length := by simp
          exact_mod_cast h1
        have hsum_ge : (((v :: vs).length : ℕ) : ℚ) * (vs.foldl min v) ≤
            (v :: vs).foldl (· + ·) 0 := by
          have h2 := le_foldl_add_of_le (v :: vs) (vs.foldl min v) hminle 0
          simpa using h2
        have hsum_le : (v :: vs).foldl (· + ·) 0 ≤
            (((v :: vs).length : ℕ) : ℚ) * (vs.foldl max v) := by
          have h2 := foldl_add_le_of_le (v :: vs) (vs.foldl max v) hmaxle 0
          simpa using h2
        refine ⟨rfl, foldl_min_mem vs v, hminle, foldl_max_mem vs v, hmaxle, rfl, ?_, ?_⟩
        · show vs.foldl min v ≤ (v :: vs).foldl (· + ·) 0 / (((v :: vs).length : ℕ) : ℚ)
          rw [le_div_iff₀ hn]
          calc vs.foldl min v * (((v :: vs).length : ℕ) : ℚ)
              = (((v :: vs).length : ℕ) : ℚ) * vs.foldl min v := by ring
          _ ≤ (v :: vs).foldl (· + ·) 0 := hsum_ge
        · show (v :: vs).foldl (· + ·) 0 / (((v :: vs).length : ℕ) : ℚ) ≤ vs.foldl max v
          rw [div_le_iff₀ hn]
          calc (v :: vs).foldl (· + ·) 0
              ≤ (((v :: vs).length : ℕ) : ℚ) * vs.foldl max v := hsum_le
          _ = vs.foldl max v * (((v :: vs).length : ℕ) : ℚ) := by ring
  · have hfil : bigData.filter (isNumericAt "y") = bigData := by
      apply List.filter_eq_self.mpr
      intro r hr
      obtain ⟨i, hi, rfl⟩ := List.mem_map.mp hr
      rfl
    have hlen : bigData.length = 150 := by
      simp [bigData]
    rw [processedData_length bigData "x" "y" (by decide) (by decide), hfil, hlen]
    decide
  · have hfun : ((fun r => match jsGet r "y" with
        | some (Value.num q) => some q
        | _ => none) ∘
          (fun i => [("x", Value.str "r"), ("y", Value.num ((149 - i : ℕ) : ℚ))])) =
        fun i => some ((149 - i : ℕ) : ℚ) := by
      funext i
      rfl
    have hnv : numericValuesOf bigData "y" =
        (List.range 150).map (fun i => ((149 - i : ℕ) : ℚ)) := by
      rw [bigData, numericValuesOf, List.filterMap_map, hfun]
      exact List.filterMap_eq_map _ ▸ rfl
    have hlen2 : (numericValuesOf bigData "y").length = 150 := by
      rw [hnv, List.length_map, List.length_range]
    have hne : ¬ ("y" = "" ∨ bigData = []) := by
      rintro (h | h)
      · exact absurd h (by decide)
      · have h2 : bigData.length = 150 := by simp [bigData]
        rw [h] at h2
        cases h2
    cases hnv2 : numericValuesOf bigData "y" with
    | nil =>
      rw [hnv2] at hlen2
      cases hlen2
    | cons v vs =>
      rw [hnv2] at hlen2
      refine ⟨{ min := vs.foldl min v, max := vs.foldl max v,
                avg := (v :: vs).foldl (· + ·) 0 / (((v :: vs).length : ℕ) : ℚ),
                count := (v :: vs).length }, ?_, ?_⟩
      · rw [yAxisStats, if_neg hne, hnv2]
      · exact hlen2

/-- Witness for C3 at a two-row dataset: the statistics record is
computed and its mean lies between its min and max. -/
theorem claim3_witness :
    yAxisStats [[("y", Value.num 7)], [("y", Value.num 3)]] "y" = some ⟨3, 7, 5, 2⟩
    ∧ (3 : ℚ) ≤ 5 ∧ (5 : ℚ) ≤ 7 := by
  have h := claim3_stats.1 [[("y", Value.num 7)], [("y", Value.num 3)]] "y" ⟨3, 7, 5, 2⟩
    (by decide)
  exact ⟨by decide, h.2.2.2.2.2.2.1, h.2.2.2.2.2.2.2⟩

/-- C4: a successful non-empty ingestion stores the rows and derives the
column list from the first row's key order; the axis-defaulting effect on
a non-empty column list sets the X axis to the first column
unconditionally and sets the Y axis to the first first-row-numeric column
whose name contains a preferred fragment, else the first numeric column,
else the empty selection; concretely a numeric Sales column is chosen
over Region in either declaration order. -/
theorem claim4_schema :
    (∀ (s : AppState) (name : String) (read : FileRead) (excel : Except String (List Row))
        (rows : List Row),
      uploadOutcome name read excel = Except.ok rows → rows ≠ [] →
        (handleFileUpload s name read excel).columns = (rows.headD []).map Prod.fst
        ∧ (handleFileUpload s name read excel).data = rows)
    ∧ (∀ (cols : List String) (data : List Row) (axes : String × String), cols ≠ [] →
        (axesEffect cols data axes).1 = cols.headD "")
    ∧ (∀ (cols : List String) (data : List Row) (axes : String × String), cols ≠ [] →
        (∃ l1 l2, numericColumns cols data = l1 ++ (axesEffect cols data axes).2 :: l2
          ∧ matchesPreferred (axesEffect cols data axes).2 = true
          ∧ ∀ c ∈ l1, matchesPreferred c = false)
        ∨ ((∀ c ∈ numericColumns cols data, matchesPreferred c = false)
          ∧ (axesEffect cols data axes).2 = (numericColumns cols data).headD ""))
    ∧ axesEffect ["Region", "Sales"]
        [[("Region", Value.str "north"), ("Sales", Value.num 10)]] ("", "") =
        ("Region", "Sales")
    ∧ axesEffect ["Sales", "Region"]
        [[("Sales", Value.num 10), ("Region", Value.num 1)]] ("", "") =
        ("Sales", "Sales") := by
  refine ⟨?_, ?_, ?_, by decide, by decide⟩
  · intro s name read excel rows h hne
    have hlen : rows.length > 0 := List.length_pos.mpr hne
    constructor
    · simp [handleFileUpload, finishUpload, h, hlen]
    · simp [handleFileUpload, finishUpload, h, hlen]
  · intro cols data axes hc
    rw [axesEffect, if_neg hc]
  · intro cols data axes hc
    have hY : (axesEffect cols data axes).2 = defaultY cols data := by
      rw [axesEffect, if_neg hc]
    cases hf : (numericColumns cols data).find? matchesPreferred with
    | some c =>
      left
      obtain ⟨hpc, l1, l2, heq, hl1⟩ := find?_eq_some_split matchesPreferred _ c hf
      have hYc : (axesEffect cols data axes).2 = c := by
        rw [hY, defaultY, hf]
      rw [hYc]
      exact ⟨l1, l2, heq, hpc, hl1⟩
    | none =>
      right
      have hall := List.find?_eq_none.mp hf
      refine ⟨fun c hcm => ?_, ?_⟩
      · have := hall c hcm
        simpa using this
      · rw [hY, defaultY, hf]

/-- Witness for C4: a concrete CSV ingestion derives the header columns,
and the effect picks a concrete first column as X axis. -/
theorem claim4_witness :
    (handleFileUpload st0 "d.csv" (FileRead.text "a,b\n1,2") (Except.error "x")).columns =
        ["a", "b"]
    ∧ (axesEffect ["A"] [] ("", "")).1 = "A" := by
  constructor
  · have h := claim4_schema.1 st0 "d.csv" (FileRead.text "a,b\n1,2") (Except.error "x")
      [[("a", Value.num 1), ("b", Value.num 2)]] (by decide) (by decide)
    rw [h.1]
    decide
  · have h2 := claim4_schema.2.1 ["A"] [] ("", "") (by decide)
    rw [h2]
    decide

/-- The Type Normalizer as the claim words it: convert exactly the
strings that are non-empty after trimming and parse as a standard
decimal-notation numeric literal, and pass everything else through. -/
def claimNormalize : Value → Value
  | Value.str s =>
    if jsTrim s ≠ [] then
      match specDecimalNum s with
      | some q => Value.num q
      | none => Value.str s
    else Value.str s
  | v => v

/-- C5 counterexample: the string 0x10 is not a numeric literal in
standard decimal notation, so the claim requires it to pass through
unchanged, but the code's JS conversion accepts the hex literal and
replaces it with the number 16. -/
theorem claim5_counterexample :
    normalizeValue (Value.str "0x10") = Value.num 16
    ∧ claimNormalize (Value.str "0x10") = Value.str "0x10"
    ∧ normalizeValue (Value.str "0x10") ≠ claimNormalize (Value.str "0x10") :=
  ⟨by decide, by decide, by decide⟩

/-- C5 (amended): the Type Normalizer replaces a value exactly when it is
a string, non-empty after trimming, whose JS string-to-number conversion
succeeds (standard decimal notation or a 0x / 0o / 0b radix-prefixed
integer literal); strings with currency symbols, thousands separators or
percent signs still pass through unchanged, as does every non-string
value; the CSV-path coercion agrees with it on every already-trimmed
field. -/
theorem claim5_normalizer :
    (∀ q : ℚ, normalizeValue (Value.num q) = Value.num q)
    ∧ (∀ b : Bool, normalizeValue (Value.bool b) = Value.bool b)
    ∧ normalizeValue Value.null = Value.null
    ∧ (∀ s : String, jsTrim s = [] → normalizeValue (Value.str s) = Value.str s)
    ∧ (∀ s : String, jsStrToNum s = none → normalizeValue (Value.str s) = Value.str s)
    ∧ (∀ (s : String) (q : ℚ), jsStrToNum s = some q → jsTrim s ≠ [] →
        normalizeValue (Value.str s) = Value.num q)
    ∧ (∀ s : String, jsTrim s = s.toList → coerceCSV s = normalizeValue (Value.str s))
    ∧ normalizeValue (Value.str "$5") = Value.str "$5"
    ∧ normalizeValue (Value.str "1,000") = Value.str "1,000"
    ∧ normalizeValue (Value.str "50%") = Value.str "50%"
    ∧ normalizeValue (Value.str "12.5") = Value.num (25 / 2) := by
  refine ⟨fun q => rfl, fun b => rfl, rfl, ?_, ?_, ?_, ?_,
    by decide, by decide, by decide, by decide⟩
  · intro s h
    cases hq : jsStrToNum s with
    | none => simp [normalizeValue, hq]
    | some q => simp [normalizeValue, hq, h]
  · intro s h
    simp [normalizeValue, h]
  · intro s q hq hne
    simp [normalizeValue, hq, hne]
  · intro s h7
    by_cases hs : s = ""
    · subst hs
      decide
    · have hnil : jsTrim s ≠ [] := by
        rw [h7]
        intro e
        exact hs ((toList_eq_nil_iff s).mp e)
      cases hq : jsStrToNum s with
      | none => simp [coerceCSV, normalizeValue, hq, hs]
      | some q => simp [coerceCSV, normalizeValue, hq, hs, hnil]

/-- Witness for C5 on a trimmable plain decimal string. -/
theorem claim5_witness : normalizeValue (Value.str " 7 ") = Value.num 7 :=
  claim5_normalizer.2.2.2.2.2.1 " 7 " 7 (by decide) (by decide)

/-- C6: the Type Normalizer is idempotent on every scalar value, and a
value that is already a number passes through unchanged. -/
theorem claim6_idempotent :
    (∀ v : Value, normalizeValue (normalizeValue v) = normalizeValue v)
    ∧ (∀ q : ℚ, normalizeValue (Value.num q) = Value.num q) := by
  refine ⟨?_, fun q => rfl⟩
  intro v
  cases v with
  | num q => rfl
  | bool b => rfl
  | null => rfl
  | str s =>
    cases hq : jsStrToNum s with
    | none => simp [normalizeValue, hq]
    | some q =>
      by_cases ht : jsTrim s = []
      · simp [normalizeValue, hq, ht]
      · simp [normalizeValue, hq, ht]

/-- C7: the extension is the lowercased slice of the file name after its
last dot; when it is none of csv, xlsx, xls the ingestion outcome is the
unsupported-file-type error naming that extension, and the outcome is
independent of the read result and decode outcome, so the failure
precedes any file read. -/
theorem claim7_extension :
    (∀ name : String, extOf name = String.mk ((afterLastSep '.' name.toList).map Char.toLower))
    ∧ (∀ (s : AppState) (name : String) (r1 r2 : FileRead)
        (e1 e2 : Except String (List Row)),
        extOf name ≠ "csv" → extOf name ≠ "xlsx" → extOf name ≠ "xls" →
          handleFileUpload s name r1 e1 = handleFileUpload s name r2 e2
          ∧ (handleFileUpload s name r1 e1).error =
              "Error processing file: " ++ ("Unsupported file type: " ++ extOf name)) := by
  refine ⟨extOf_eq_afterLastSep, ?_⟩
  intro s name r1 r2 e1 e2 h1 h2 h3
  have ho : ∀ (r : FileRead) (e : Except String (List Row)),
      uploadOutcome name r e = Except.error ("Unsupported file type: " ++ extOf name) := by
    intro r e
    rw [uploadOutcome.eq_def, if_neg h1, if_neg (by tauto)]
  constructor
  · rw [handleFileUpload, handleFileUpload, ho r1 e1, ho r2 e2]
  · rw [handleFileUpload, ho r1 e1]
    rfl

/-- Witness for C7 at an uppercase txt extension: identical outcomes for
different contents, with the naming error message. -/
theorem claim7_witness :
    handleFileUpload st0 "report.TXT" FileRead.failed (Except.ok []) =
      handleFileUpload st0 "report.TXT" (FileRead.text "a,b\n1,2") (Except.error "boom")
    ∧ (handleFileUpload st0 "report.TXT" FileRead.failed (Except.ok [])).error =
        "Error processing file: " ++ ("Unsupported file type: " ++ extOf "report.TXT") :=
  claim7_extension.2 st0 "report.TXT" FileRead.failed (FileRead.text "a,b\n1,2")
    (Except.ok []) (Except.error "boom") (by decide) (by decide) (by decide)

/-- C8 counterexample: on fully empty text the parser rejects with the
read-failure message although no non-blank line exists, refuting the
claimed equivalence between the EmptyInput failure and the absence of
non-blank lines. -/
theorem claim8_counterexample :
    ¬ (parseCSVFile "" = Except.error "CSV file is empty" ↔ nonBlankLines "" = []) := by
  decide

/-- C8 (amended): the parser fails with the EmptyInput message exactly on
non-empty text with no non-blank lines; fully empty text instead hits the
falsy-result guard with the read-failure message; the surfaced message is
the fixed prefix followed by the underlying message. -/
theorem claim8_empty_input :
    (∀ text : String, text ≠ "" →
      (parseCSVFile text = Except.error "CSV file is empty" ↔ nonBlankLines text = []))
    ∧ parseCSVFile "" = Except.error "Failed to read file"
    ∧ (∀ (s : AppState) (name t : String) (e : Except String (List Row)),
        extOf name = "csv" → t ≠ "" → nonBlankLines t = [] →
          (handleFileUpload s name (FileRead.text t) e).error =
            "Error processing file: CSV file is empty") := by
  refine ⟨?_, by decide, ?_⟩
  · intro text ht
    constructor
    · intro h
      cases hl : nonBlankLines text with
      | nil => rfl
      | cons header rest =>
        rw [parseCSVFile, if_neg ht, hl] at h
        simp at h
    · intro h
      rw [parseCSVFile, if_neg ht, h]
  · intro s name t e hext ht hnb
    have ho : uploadOutcome name (FileRead.text t) e = Except.error "CSV file is empty" := by
      rw [uploadOutcome.eq_def, if_pos hext]
      show parseCSVFile t = Except.error "CSV file is empty"
      rw [parseCSVFile, if_neg ht, hnb]
    rw [handleFileUpload, ho]
    rfl

/-- Witness for C8: a whitespace-only file surfaces the prefixed
EmptyInput message through the upload boundary. -/
theorem claim8_witness :
    (handleFileUpload st0 "d.csv" (FileRead.text " \n ") (Except.ok [])).error =
      "Error processing file: CSV file is empty" :=
  claim8_empty_input.2.2 st0 "d.csv" " \n " (Except.ok []) (by decide) (by decide) (by decide)

/-- C9: every rejected ingestion outcome leaves the dataset and column
list cleared, sets exactly the prefixed error message and clears the
loading flag; a successful ingestion of zero rows does the same with the
no-valid-data message, so no partially ingested data is ever visible. -/
theorem claim9_error_boundary :
    ∀ (s : AppState) (name : String) (read : FileRead) (excel : Except String (List Row)),
      (∀ m : String, uploadOutcome name read excel = Except.error m →
        (handleFileUpload s name read excel).data = []
        ∧ (handleFileUpload s name read excel).columns = []
        ∧ (handleFileUpload s name read excel).error = "Error processing file: " ++ m
        ∧ (handleFileUpload s name read excel).loading = false)
      ∧ (uploadOutcome name read excel = Except.ok [] →
        (handleFileUpload s name read excel).data = []
        ∧ (handleFileUpload s name read excel).columns = []
        ∧ (handleFileUpload s name read excel).error = "No valid data found in file"
        ∧ (handleFileUpload s name read excel).loading = false) := by
  intro s name read excel
  constructor
  · intro m hm
    rw [handleFileUpload, hm]
    exact ⟨rfl, rfl, rfl, rfl⟩
  · intro hk
    rw [handleFileUpload, hk]
    exact ⟨rfl, rfl, rfl, rfl⟩

/-- Witness for C9: an unsupported extension clears everything with the
prefixed message, and a header-only CSV yields the no-valid-data
message. -/
theorem claim9_witness :
    ((handleFileUpload st0 "f.txt" FileRead.failed (Except.ok [])).data = []
      ∧ (handleFileUpload st0 "f.txt" FileRead.failed (Except.ok [])).columns = []
      ∧ (handleFileUpload st0 "f.txt" FileRead.failed (Except.ok [])).error =
          "Error processing file: " ++ "Unsupported file type: txt"
      ∧ (handleFileUpload st0 "f.txt" FileRead.failed (Except.ok [])).loading = false)
    ∧ (handleFileUpload st0 "d.csv" (FileRead.text "a,b") (Except.error "x")).error =
        "No valid data found in file" := by
  constructor
  · exact (claim9_error_boundary st0 "f.txt" FileRead.failed (Except.ok [])).1
      "Unsupported file type: txt" (by decide)
  · exact ((claim9_error_boundary st0 "d.csv" (FileRead.text "a,b") (Except.error "x")).2
      (by decide)).2.2.1

end

end WebDataViz
